import Mathlib

/-!
Verification development for the multilspy repository.

The definitions below are shallow embeddings of the Python source:

* `JVal`, `getNestedValue`, `setNestedValue` embed
  `EclipseJDTLS._get_nested_value` / `_set_nested_value`
  (src/multilspy/language_servers/eclipse_jdtls/eclipse_jdtls.py).
* `getDependency`, `getDependencyState` embed
  `DependencyConfigManager.get_dependency` and
  `EclipseJDTLS._get_dependency_state`.
* `downloadDependency`, `downloadAllPending`, `markDownloadCompleted` embed
  the corresponding methods of `DependencyDownloader` and
  `DependencyConfigManager`.
* `SessionState`, `step`, `run` embed the sequential body of
  `EclipseJDTLS.start_server` together with the notification/request
  handlers it registers, as a labelled transition system whose labels are
  the inbound messages, scheduler resumptions, and scope exit.
* `getInitializeParams` embeds `EclipseJDTLS._get_initialize_params`.
* The MCP tool bodies of `mcp_runner.py` are embedded as action lists.

Python `dict`s are embedded as association lists (first match wins on
lookup, assignment replaces in place or appends, matching insertion-order
semantics); machine integers are `Nat`/`Int` (no overflow is relevant);
fallible code returns `Option`.
-/

/-! ### Association lists (embedding of Python dict lookup/assignment) -/

/-- Lookup in an association list: the embedding of `d[k]` / `k in d`. -/
def alookup {α : Type} : List (String × α) → String → Option α
  | [], _ => none
  | (k, v) :: rest, key => if k = key then some v else alookup rest key

/-- Assignment `d[k] = v` on an association list: replaces the first
binding of `k` in place, or appends a new binding (Python dicts keep the
position of an existing key and append new keys). -/
def aset {α : Type} : List (String × α) → String → α → List (String × α)
  | [], key, v => [(key, v)]
  | (k, w) :: rest, key, v =>
    if k = key then (key, v) :: rest else (k, w) :: aset rest key v

/-! ### JSON-like values

Embedding of the Python structured values (`Dict[str, Any]` trees) that
`_get_nested_value` / `_set_nested_value` operate on. -/

/-- A JSON-like value: the embedding of Python `Any` as it occurs in the
nested-dictionary helpers of `eclipse_jdtls.py`. -/
inductive JVal : Type where
  | str (s : String)
  | num (n : Int)
  | bool (b : Bool)
  | null
  | arr (xs : List JVal)
  | obj (fields : List (String × JVal))
  deriving BEq

/-- Embedding of `EclipseJDTLS._get_nested_value` (eclipse_jdtls.py
lines 491-511): walk the key path, stepping only through dictionaries
that contain the key, and return the default (`none`) as soon as the
path breaks. -/
def getNestedValue : JVal → List String → Option JVal
  | v, [] => some v
  | JVal.obj fs, k :: ks =>
    match alookup fs k with
    | some v => getNestedValue v ks
    | none => none
  | _, _ :: _ => none

/-- Embedding of `EclipseJDTLS._set_nested_value` (eclipse_jdtls.py
lines 513-530): walk `keys` with the last key separate, creating a fresh
empty dictionary for each missing intermediate key, and assign the value
at the last key.  `none` embeds the `TypeError` Python raises when the
walk reaches a value that is not a dictionary.  An empty key list leaves
the dictionary unchanged (the `if keys` guard in the source). -/
def setNestedValue : JVal → List String → JVal → Option JVal
  | d, [], _ => some d
  | JVal.obj fs, [k], v => some (JVal.obj (aset fs k v))
  | JVal.obj fs, k :: k2 :: ks, v =>
    let child := match alookup fs k with
      | some c => c
      | none => JVal.obj []
    match setNestedValue child (k2 :: ks) v with
    | some c2 => some (JVal.obj (aset fs k c2))
    | none => none
  | _, _ :: _, _ => none

/-- Holds when, writing `initSegment p l`, `p` is an initial segment of `l`. -/
def initSegment : List String → List String → Bool
  | [], _ => true
  | _ :: _, [] => false
  | a :: as, b :: bs => a == b && initSegment as bs

/-- The hypothesis of claim C9: every proper nonempty initial segment of
the key path that is already present in the dictionary maps to a
dictionary. -/
def PathHeadsAreDicts (d : JVal) (ks : List String) : Prop :=
  ∀ p : List String, p ≠ [] → p.length < ks.length → initSegment p ks = true →
    ∀ w : JVal, getNestedValue d p = some w → ∃ fs, w = JVal.obj fs

/-! ### Substring containment (embedding of Python `a in b` on strings) -/

/-- Holds when, in `isPreL n l`, the character list `n` is an initial segment of
`l` (the building block of Python substring containment). -/
def isPreL : List Char → List Char → Bool
  | [], _ => true
  | _ :: _, [] => false
  | a :: as, b :: bs => a == b && isPreL as bs

/-- Embeds Python `needle in hay` on character
lists: `needle` occurs contiguously somewhere in `hay` (the empty needle
occurs in every haystack, as in Python). -/
def containsL : List Char → List Char → Bool
  | [], needle => isPreL needle []
  | c :: t, needle => isPreL needle (c :: t) || containsL t needle

/-- Embeds, as `strIn needle hay`, the Python expression `needle in hay` for
strings. -/
def strIn (needle hay : String) : Bool :=
  containsL hay.toList needle.toList

/-! ### Dependency configuration manager

Embedding of `DependencyConfigManager` (runtime_dependency_config/
config_manager.py) and the parts of `DependencyDownloader`
(runtime_dependency_downloader/downloader.py) the claims refer to. -/

/-- The `DownloadStatus` string constants (config_manager.py 15-21). -/
def statusPending : String := "pending"

/-- The constant `DownloadStatus.IN_PROGRESS`. -/
def statusInProgress : String := "in_progress"

/-- The constant `DownloadStatus.COMPLETED`. -/
def statusCompleted : String := "completed"

/-- The constant `DownloadStatus.FAILED`. -/
def statusFailed : String := "failed"

/-- Embedding of the `DependencyState` record (config_manager.py
66-102). -/
structure DependencyState where
  dependencyKey : String
  downloadStatus : String
  downloadedPath : Option String
  errorMessage : Option String
  deriving DecidableEq

/-- Embedding of `DependencyState.is_downloaded`. -/
def DependencyState.isDownloaded (s : DependencyState) : Bool :=
  s.downloadStatus == statusCompleted

/-- Embedding of `DependencyConfigManager.get_dependency`
(config_manager.py 153-156): returns the entries of
`dependency_states` whose recorded key `k` satisfies `k in key`, i.e.
whose recorded key is a substring of the query. -/
def getDependency (states : List (String × DependencyState)) (key : String) :
    List (String × DependencyState) :=
  states.filter (fun kv => strIn kv.1 key)

/-- The loop body of `EclipseJDTLS._get_dependency_state`
(eclipse_jdtls.py 387-396): scan the filtered entries for the first one
whose key contains `name`. -/
def firstWithNameIn (name : String) :
    List (String × DependencyState) → Option DependencyState
  | [] => none
  | (k, v) :: rest =>
    if strIn name k then some v else firstWithNameIn name rest

/-- Embedding of `EclipseJDTLS._get_dependency_state`: filter the states
through `get_dependency`, then take the first entry whose key contains
`name` (returning `none`, the Python `None`, when there is none). -/
def getDependencyStateEJ (states : List (String × DependencyState))
    (name : String) : Option DependencyState :=
  firstWithNameIn name (getDependency states name)

/-! ### Dependency downloader

Embedding of `DependencyDownloader.download_dependency` and
`download_all_pending` (downloader.py 43-124) together with
`DependencyConfigManager.mark_download_completed` and
`get_pending_downloads` (config_manager.py 257-288). -/

/-- Embedding of the `DownloadPlan` record (config_manager.py 24-63). -/
structure DownloadPlan where
  dependencyKey : String
  url : String
  archiveType : String
  destinationPath : String
  status : String
  deriving DecidableEq

/-- Embedding of `DependencyConfigManager.mark_download_completed`
(config_manager.py 269-288): sets the plan status to COMPLETED or FAILED
and records a fresh `DependencyState` under the plan's key (path only on
success, error message only on failure). -/
def markDownloadCompleted (states : List (String × DependencyState))
    (plan : DownloadPlan) (success : Bool) :
    DownloadPlan × List (String × DependencyState) :=
  let st := if success then statusCompleted else statusFailed
  let newState : DependencyState :=
    { dependencyKey := plan.dependencyKey
      downloadStatus := st
      downloadedPath := if success then some plan.destinationPath else none
      errorMessage := if success then none else some "Download failed" }
  ({ plan with status := st }, aset states plan.dependencyKey newState)

/-- What the environment does for one download attempt: the directory
creation / `FileUtils.download_and_extract_archive` step may raise, the
`_verify_download` check may return false or itself raise, or everything
succeeds.  Every non-`ok` outcome is caught by the `except Exception`
block of `download_dependency`. -/
inductive DownloadOutcome : Type where
  | ok
  | raisesBeforeVerify
  | verifyFalse
  | verifyRaises
  deriving DecidableEq

/-- Embedding of `DependencyDownloader.download_dependency`
(downloader.py 72-124): on any failure outcome the exception is caught,
the plan is marked failed and `False` is returned; on success the plan is
marked completed with the destination path and `True` is returned. -/
def downloadDependency (env : DownloadPlan → DownloadOutcome)
    (states : List (String × DependencyState)) (plan : DownloadPlan) :
    Bool × List (String × DependencyState) :=
  match env plan with
  | DownloadOutcome.ok => (true, (markDownloadCompleted states plan true).2)
  | _ => (false, (markDownloadCompleted states plan false).2)

/-- Embedding of `DependencyConfigManager.get_pending_downloads`
(config_manager.py 257-267), flattened over the plan lists. -/
def getPendingDownloads (plans : List DownloadPlan) : List DownloadPlan :=
  plans.filter (fun p => p.status == statusPending)

/-- The loop of `download_all_pending` (downloader.py 64-70):
`all_succeeded` accumulates, states are threaded through. -/
def downloadAllPendingAux (env : DownloadPlan → DownloadOutcome) :
    List DownloadPlan → Bool → List (String × DependencyState) →
    Bool × List (String × DependencyState)
  | [], acc, states => (acc, states)
  | p :: rest, acc, states =>
    let r := downloadDependency env states p
    downloadAllPendingAux env rest (acc && r.1) r.2

/-- Embedding of `DependencyDownloader.download_all_pending`
(downloader.py 43-70): the pending plans are computed once up front; an
empty pending list returns `True` immediately, which coincides with the
fold over the empty list. -/
def downloadAllPending (env : DownloadPlan → DownloadOutcome)
    (plans : List DownloadPlan) (states : List (String × DependencyState)) :
    Bool × List (String × DependencyState) :=
  downloadAllPendingAux env (getPendingDownloads plans) true states

/-! ### EclipseJDTLS start_server session machine

Embedding of the sequential body of `EclipseJDTLS.start_server`
(eclipse_jdtls.py 605-713) together with the handlers it registers
(`register_capability_handler` 621-640, `lang_status_handler` 642-647).
The coroutine body is sequential; the handlers run whenever the matching
inbound message arrives.  We embed the whole as a labelled transition
system: labels are arrival of the initialize response, arrival of an
inbound `client/registerCapability` request or `language/status`
notification, resumption of the suspended body (`proceed`, enabled only
when the event the body awaits is set), exit of the `async with` scope,
and completion of the awaited `shutdown` call.  The `sent` field records
the outbound protocol interactions in order. -/

/-- One entry of the `registrations` list handled by
`register_capability_handler`. -/
structure Registration where
  method : String
  resolveProvider : Option Bool
  triggerCharacters : Option (List String)
  commands : List String
  deriving DecidableEq

/-- Gate (asyncio.Event) flags owned by the EclipseJDTLS instance. -/
structure Gates where
  completionsAvailable : Bool
  intellicodeEnableCommandAvailable : Bool
  serviceReadyEvent : Bool
  deriving DecidableEq

/-- Embedding of the loop of `register_capability_handler`
(eclipse_jdtls.py 621-640): registrations are processed in order; a
`textDocument/completion` registration is asserted to carry
`resolveProvider = True` and the exact trigger-character list before the
completions gate is set (an assertion failure aborts the loop with the
gate updates made so far, embedded as the `false` flag); a
`workspace/executeCommand` registration that lists
`java.intellicode.enable` sets the intellicode gate. -/
def runRegisterCapabilityHandler : List Registration → Gates → Gates × Bool
  | [], g => (g, true)
  | r :: rest, g =>
    if r.method == "textDocument/completion" then
      if r.resolveProvider == some true &&
          r.triggerCharacters == some [".", "@", "#", "*", " "] then
        runRegisterCapabilityHandler rest { g with completionsAvailable := true }
      else
        (g, false)
    else if r.method == "workspace/executeCommand" then
      runRegisterCapabilityHandler rest
        (if r.commands.contains "java.intellicode.enable" then
          { g with intellicodeEnableCommandAvailable := true }
        else g)
    else
      runRegisterCapabilityHandler rest g

/-- The capability fields of the initialize response that
`start_server` asserts on (eclipse_jdtls.py 682-684). -/
structure Caps where
  textDocumentSyncChange : Option Nat
  hasCompletionProvider : Bool
  hasExecuteCommandProvider : Bool
  deriving DecidableEq

/-- The three assertions run on the initialize response: a change
synchronization mode of 2, no `completionProvider`, and no
`executeCommandProvider`. -/
def capabilitiesOk (c : Caps) : Bool :=
  c.textDocumentSyncChange == some 2 &&
    !c.hasCompletionProvider && !c.hasExecuteCommandProvider

/-- Program counter of the sequential `start_server` body. -/
inductive Phase : Type where
  | awaitingInit
  | failedHandshake
  | awaitingIntellicode
  | awaitingServiceReady
  | ready
  | shuttingDown
  | stopped
  deriving DecidableEq

/-- Outbound interactions of the `start_server` body, in program
order.  `yieldReady` marks the `yield self` statement: the point at
which the session becomes usable (`Ready`). -/
inductive OutMsg : Type where
  | initializeReq
  | initializedNotif
  | didChangeConfigNotif
  | executeCommandReq (cmd : String)
  | yieldReady
  | shutdownReq
  | stopProc
  deriving DecidableEq

/-- Session state: program counter, the asyncio.Event gates, and the
ordered record of outbound interactions. -/
structure SessionState where
  phase : Phase
  gates : Gates
  sent : List OutMsg
  deriving DecidableEq

/-- The state right after the initialize request has been sent and the
body suspends awaiting its response. -/
def initSession : SessionState :=
  { phase := Phase.awaitingInit
    gates := { completionsAvailable := false
               intellicodeEnableCommandAvailable := false
               serviceReadyEvent := false }
    sent := [OutMsg.initializeReq] }

/-- Labels of the transition system (inbound messages, scheduler
resumptions of the suspended body, scope exit, shutdown completion). -/
inductive Label : Type where
  | initResponse (c : Caps)
  | registerCapability (regs : List Registration)
  | langStatus (type message : String)
  | proceed
  | exitScope
  | shutdownComplete

/-- One transition.  `initResponse` runs the assertions and, on success,
sends `initialized` and `workspace/didChangeConfiguration` without
suspending (eclipse_jdtls.py 681-690); `registerCapability` and
`langStatus` run the registered handlers whatever the phase;
`proceed` resumes the body when the awaited event is set: past the
`intellicode_enable_command_available.wait()` it sends the
`java.intellicode.enable` execute command (692-704), past the
`service_ready_event.wait()` it reaches the yield (707-709);
`exitScope` sends the shutdown request and `shutdownComplete` finishes
the awaited shutdown before the process is stopped (711-712). -/
def step (s : SessionState) (l : Label) : SessionState :=
  match l with
  | Label.initResponse c =>
    if s.phase = Phase.awaitingInit then
      if capabilitiesOk c then
        { s with phase := Phase.awaitingIntellicode
                 sent := s.sent ++ [OutMsg.initializedNotif,
                                    OutMsg.didChangeConfigNotif] }
      else
        { s with phase := Phase.failedHandshake }
    else s
  | Label.registerCapability regs =>
    { s with gates := (runRegisterCapabilityHandler regs s.gates).1 }
  | Label.langStatus t m =>
    if t == "ServiceReady" && m == "ServiceReady" then
      { s with gates := { s.gates with serviceReadyEvent := true } }
    else s
  | Label.proceed =>
    match s.phase with
    | Phase.awaitingIntellicode =>
      if s.gates.intellicodeEnableCommandAvailable then
        { s with phase := Phase.awaitingServiceReady
                 sent := s.sent ++
                   [OutMsg.executeCommandReq "java.intellicode.enable"] }
      else s
    | Phase.awaitingServiceReady =>
      if s.gates.serviceReadyEvent then
        { s with phase := Phase.ready
                 sent := s.sent ++ [OutMsg.yieldReady] }
      else s
    | _ => s
  | Label.exitScope =>
    if s.phase = Phase.ready then
      { s with phase := Phase.shuttingDown
               sent := s.sent ++ [OutMsg.shutdownReq] }
    else s
  | Label.shutdownComplete =>
    if s.phase = Phase.shuttingDown then
      { s with phase := Phase.stopped
               sent := s.sent ++ [OutMsg.stopProc] }
    else s

/-- Run the machine from `initSession` over a list of labels. -/
def run (labs : List Label) : SessionState :=
  labs.foldl step initSession

/-- The outbound record is a function of the phase: each phase extends
the previous one's record by exactly the messages its entry transition
sends. -/
def canonicalSent : Phase → List OutMsg
  | Phase.awaitingInit => [OutMsg.initializeReq]
  | Phase.failedHandshake => [OutMsg.initializeReq]
  | Phase.awaitingIntellicode =>
    [OutMsg.initializeReq, OutMsg.initializedNotif, OutMsg.didChangeConfigNotif]
  | Phase.awaitingServiceReady =>
    [OutMsg.initializeReq, OutMsg.initializedNotif, OutMsg.didChangeConfigNotif,
     OutMsg.executeCommandReq "java.intellicode.enable"]
  | Phase.ready =>
    [OutMsg.initializeReq, OutMsg.initializedNotif, OutMsg.didChangeConfigNotif,
     OutMsg.executeCommandReq "java.intellicode.enable", OutMsg.yieldReady]
  | Phase.shuttingDown =>
    [OutMsg.initializeReq, OutMsg.initializedNotif, OutMsg.didChangeConfigNotif,
     OutMsg.executeCommandReq "java.intellicode.enable", OutMsg.yieldReady,
     OutMsg.shutdownReq]
  | Phase.stopped =>
    [OutMsg.initializeReq, OutMsg.initializedNotif, OutMsg.didChangeConfigNotif,
     OutMsg.executeCommandReq "java.intellicode.enable", OutMsg.yieldReady,
     OutMsg.shutdownReq, OutMsg.stopProc]

/-- The invariant carried through every reachable state. -/
def SessionInv (s : SessionState) : Prop :=
  s.sent = canonicalSent s.phase ∧
  (s.phase = Phase.awaitingServiceReady ∨ s.phase = Phase.ready ∨
      s.phase = Phase.shuttingDown ∨ s.phase = Phase.stopped →
    s.gates.intellicodeEnableCommandAvailable = true) ∧
  (s.phase = Phase.ready ∨ s.phase = Phase.shuttingDown ∨
      s.phase = Phase.stopped →
    s.gates.serviceReadyEvent = true)

/-! ### Initialize parameters

Embedding of `EclipseJDTLS._get_initialize_params` (eclipse_jdtls.py
398-489) over the `InitializeParamsConfig` model
(runtime_dependency_models/initialize_params.py 332-367).  The record
fields model the camelCase keys produced by `to_lsp_dict`
(`dict(by_alias=True)`).  The path-library functions (`os.path.abspath`,
`pathlib.Path.as_uri`, `os.path.basename`, `os.path.isabs`) are external
to the repository and are taken as parameters. -/

/-- One entry of the `workspaceFolders` list. -/
structure WorkspaceFolder where
  uri : String
  name : String
  deriving DecidableEq

/-- The fields of `InitializeParamsConfig` that
`_get_initialize_params` substitutes, plus the initialization-option
tree; the untouched template fields (clientInfo, capabilities, ...) are
carried through unchanged by the source and are omitted. -/
structure InitializeParamsConfig where
  processId : Option Nat
  rootPath : Option String
  rootUri : Option String
  workspaceFolders : Option (List WorkspaceFolder)
  initializationOptions : JVal

/-- Modelled from the spec: `InitializeParamsConfig.set_initialization_option`
is called by `_get_initialize_params` but its definition is not among
the provided sources.  Per the spec, the handshake-payload template has
"dynamic placeholders for process id, root path/URI, and workspace
folder metadata" substituted into its option trees before sending; the
substitution into the initialization-option tree is modelled as a
nested-dictionary assignment (leaving the config unchanged if the walk
fails). -/
def setInitializationOption (cfg : InitializeParamsConfig) (value : JVal)
    (keys : List String) : InitializeParamsConfig :=
  match setNestedValue cfg.initializationOptions keys value with
  | some d => { cfg with initializationOptions := d }
  | none => cfg

/-- Embedding of `EclipseJDTLS._get_initialize_params`: make the
repository path absolute if it is not, substitute the process id, root
path, root URI and the one-element workspaceFolders list, and write the
workspace-folder URI, intellicode bundle, runtime, and gradle settings
into the initialization options. -/
def getInitializeParams (cfg : InitializeParamsConfig) (pid : Nat)
    (isAbs : String → Bool) (abspath : String → String)
    (asUri : String → String) (basename : String → String)
    (intellicodeJarPath jreHomePath gradlePath jrePath : String)
    (repositoryAbsolutePath : String) : InitializeParamsConfig :=
  let p := if isAbs repositoryAbsolutePath then repositoryAbsolutePath
    else abspath repositoryAbsolutePath
  let workspaceUri := asUri p
  let workspaceName := basename p
  let cfg1 := { cfg with
    processId := some pid, rootPath := some p, rootUri := some (asUri p) }
  let cfg2 := setInitializationOption cfg1
    (JVal.arr [JVal.str workspaceUri]) ["workspaceFolders"]
  let cfg3 := { cfg2 with
    workspaceFolders := some [WorkspaceFolder.mk workspaceUri workspaceName] }
  let cfg4 := setInitializationOption cfg3
    (JVal.arr [JVal.str intellicodeJarPath]) ["bundles"]
  let cfg5 := setInitializationOption cfg4
    (JVal.arr [JVal.obj [("name", JVal.str "JavaSE-17"),
      ("path", JVal.str jreHomePath), ("default", JVal.bool true)]])
    ["settings", "java", "configuration", "runtimes"]
  let cfg6 := setInitializationOption cfg5 (JVal.str gradlePath)
    ["settings", "java", "import", "gradle", "home"]
  setInitializationOption cfg6 (JVal.str jrePath)
    ["settings", "java", "import", "gradle", "java", "home"]

/-! ### MCP tools

Embedding of the position/document-oriented tool bodies of
`MCPRunner._register_tools` (mcp/mcp_runner.py 436-658).  Each tool
first checks `_ensure_configured`, resolves the language and the
language server (returning/raising without touching any document on
failure), and in its `try` block calls `lsp.open_file(file_path)` and
then the corresponding request.  The actions a tool performs on the
document layer are recorded as a list. -/

/-- A document-layer action performed by a tool body. -/
inductive ToolAction : Type where
  | openFile (fp : String)
  | request (method : String) (fp : String)
  deriving DecidableEq

/-- The shared guard structure of every tool body: no document action
is performed unless the runner is configured, the language parses, and
a language server for it is available. -/
def toolBody (configured langValid serverAvailable : Bool)
    (acts : List ToolAction) : List ToolAction :=
  if !configured then []
  else if !langValid then []
  else if !serverAvailable then []
  else acts

/-- Embedding of `lsp_get_definition` (mcp_runner.py 486-518). -/
def lspGetDefinitionActs (configured langValid serverAvailable : Bool)
    (filePath : String) : List ToolAction :=
  toolBody configured langValid serverAvailable
    [ToolAction.openFile filePath,
     ToolAction.request "request_definition" filePath]

/-- Embedding of `lsp_get_references` (mcp_runner.py 522-554). -/
def lspGetReferencesActs (configured langValid serverAvailable : Bool)
    (filePath : String) : List ToolAction :=
  toolBody configured langValid serverAvailable
    [ToolAction.openFile filePath,
     ToolAction.request "request_references" filePath]

/-- Embedding of `lsp_get_hover` (mcp_runner.py 558-590). -/
def lspGetHoverActs (configured langValid serverAvailable : Bool)
    (filePath : String) : List ToolAction :=
  toolBody configured langValid serverAvailable
    [ToolAction.openFile filePath,
     ToolAction.request "request_hover" filePath]

/-- Embedding of `lsp_get_completions` (mcp_runner.py 594-626). -/
def lspGetCompletionsActs (configured langValid serverAvailable : Bool)
    (filePath : String) : List ToolAction :=
  toolBody configured langValid serverAvailable
    [ToolAction.openFile filePath,
     ToolAction.request "request_completions" filePath]

/-- Embedding of `lsp_get_document_symbols` (mcp_runner.py 630-658). -/
def lspGetDocumentSymbolsActs (configured langValid serverAvailable : Bool)
    (filePath : String) : List ToolAction :=
  toolBody configured langValid serverAvailable
    [ToolAction.openFile filePath,
     ToolAction.request "request_document_symbols" filePath]

/-- Modelled from the spec: `SyncLanguageServer.open_file` is called by
the tool bodies but its definition is not among the provided sources.
Per the spec it "ensures the document is registered as open (sending an
open notification with full content and version 1 on first use)";
the open-document map associates each open uri with its version. -/
def openFileSem (docs : List (String × Nat)) (fp : String) :
    List (String × Nat) :=
  match alookup docs fp with
  | some _ => docs
  | none => docs ++ [(fp, 1)]

/-- Checks that every request in the action list is issued while its
document is open, threading the document map through the open actions. -/
def requestsOnOpenDocs (docs : List (String × Nat)) :
    List ToolAction → Bool
  | [] => true
  | ToolAction.openFile fp :: rest =>
    requestsOnOpenDocs (openFileSem docs fp) rest
  | ToolAction.request _ fp :: rest =>
    (alookup docs fp).isSome && requestsOnOpenDocs docs rest

/-! ### Theorems -/

theorem alookup_aset_self {α : Type} (l : List (String × α)) (k : String) (v : α) :
    alookup (aset l k v) k = some v := by
  induction l with
  | nil => simp [aset, alookup]
  | cons hd tl ih =>
    by_cases h : hd.1 = k
    · simp [aset, alookup, h]
    · simp [aset, alookup, h, ih]

theorem setNested_getNested_roundtrip :
    ∀ (ks : List String) (fs : List (String × JVal)) (v : JVal),
      ks ≠ [] → PathHeadsAreDicts (JVal.obj fs) ks →
      ∃ fs2, setNestedValue (JVal.obj fs) ks v = some (JVal.obj fs2) ∧
        getNestedValue (JVal.obj fs2) ks = some v := by
  intro ks
  induction ks with
  | nil => intro fs v h; exact absurd rfl h
  | cons k ks ih =>
    intro fs v _ hpre
    cases ks with
    | nil =>
      refine ⟨aset fs k v, rfl, ?_⟩
      simp [getNestedValue, alookup_aset_self]
    | cons k2 ks2 =>
      cases hl : alookup fs k with
      | none =>
        -- the intermediate key is missing: a fresh empty dict is created
        have hpre2 : PathHeadsAreDicts (JVal.obj []) (k2 :: ks2) := by
          intro p hp hlen hpref w hw
          exfalso
          cases p with
          | nil => exact hp rfl
          | cons q qs => simp [getNestedValue, alookup] at hw
        obtain ⟨fs2, hset, hget⟩ := ih [] v (by simp) hpre2
        refine ⟨aset fs k (JVal.obj fs2), ?_, ?_⟩
        · simp [setNestedValue, hl, hset]
        · have h1 : getNestedValue (JVal.obj (aset fs k (JVal.obj fs2)))
              (k :: k2 :: ks2) = getNestedValue (JVal.obj fs2) (k2 :: ks2) := by
            simp [getNestedValue, alookup_aset_self]
          rw [h1]
          exact hget
      | some c =>
        -- the intermediate key is present: by hypothesis it holds a dict
        have hcobj : ∃ cfs, c = JVal.obj cfs :=
          hpre [k] (by simp) (by simp) (by simp [initSegment]) c
            (by simp [getNestedValue, hl])
        obtain ⟨cfs, rfl⟩ := hcobj
        have hpre2 : PathHeadsAreDicts (JVal.obj cfs) (k2 :: ks2) := by
          intro p hp hlen hpref w hw
          refine hpre (k :: p) (by simp) (by simpa using Nat.succ_lt_succ hlen)
            (by simp [initSegment, hpref]) w ?_
          simpa [getNestedValue, hl] using hw
        obtain ⟨fs2, hset, hget⟩ := ih cfs v (by simp) hpre2
        refine ⟨aset fs k (JVal.obj fs2), ?_, ?_⟩
        · simp [setNestedValue, hl, hset]
        · have h1 : getNestedValue (JVal.obj (aset fs k (JVal.obj fs2)))
              (k :: k2 :: ks2) = getNestedValue (JVal.obj fs2) (k2 :: ks2) := by
            simp [getNestedValue, alookup_aset_self]
          rw [h1]
          exact hget

/-- C9: for every dictionary `d`, nonempty key path `ks` whose
already-present proper prefixes all map to dictionaries, and value `v`,
`_set_nested_value` succeeds (creating the missing intermediate
dictionaries) and `_get_nested_value` afterwards returns `v`. -/
theorem claim_c9_set_get_nested (fs : List (String × JVal)) (ks : List String)
    (v : JVal) (hne : ks ≠ []) (hpre : PathHeadsAreDicts (JVal.obj fs) ks) :
    ∃ fs2, setNestedValue (JVal.obj fs) ks v = some (JVal.obj fs2) ∧
      getNestedValue (JVal.obj fs2) ks = some v :=
  setNested_getNested_roundtrip ks fs v hne hpre

/-- Witness for C9 at a concrete input: the path `["a", "b"]` into the
dictionary where key `"a"` holds an (empty) dictionary. -/
theorem claim_c9_witness :
    ∃ fs2, setNestedValue (JVal.obj [("a", JVal.obj [])]) ["a", "b"]
        (JVal.num 7) = some (JVal.obj fs2) ∧
      getNestedValue (JVal.obj fs2) ["a", "b"] = some (JVal.num 7) :=
  claim_c9_set_get_nested [("a", JVal.obj [])] ["a", "b"] (JVal.num 7)
    (by simp)
    (by
      intro p hp hlen hpref w hw
      cases p with
      | nil => exact absurd rfl hp
      | cons q qs =>
        cases qs with
        | nil =>
          simp [initSegment] at hpref
          subst hpref
          simp [getNestedValue, alookup] at hw
          first
          | exact ⟨[], hw⟩
          | exact ⟨[], hw.symm⟩
        | cons q2 qs2 => simp at hlen; omega)

theorem isPreL_length_le {n l : List Char} (h : isPreL n l = true) :
    n.length ≤ l.length := by
  induction n generalizing l with
  | nil => simp
  | cons a as ih =>
    cases l with
    | nil => simp [isPreL] at h
    | cons b bs =>
      simp only [isPreL, Bool.and_eq_true] at h
      simpa using ih h.2

theorem containsL_length_le {hay needle : List Char}
    (h : containsL hay needle = true) : needle.length ≤ hay.length := by
  induction hay with
  | nil =>
    have := isPreL_length_le (l := []) (by simpa [containsL] using h)
    simpa using this
  | cons c t ih =>
    simp only [containsL, Bool.or_eq_true] at h
    rcases h with h | h
    · exact isPreL_length_le h
    · exact Nat.le_trans (ih h) (by simp)

/-- C8: `get_dependency` keeps exactly the recorded entries whose key is
a substring of the query (not the reverse containment); hence when every
recorded key is strictly longer than the query — in particular when every
key strictly extends it — the result is empty and
`_get_dependency_state` returns `None`. -/
theorem claim_c8_get_dependency_substring_direction :
    (∀ (states : List (String × DependencyState)) (q : String)
        (kv : String × DependencyState),
      kv ∈ getDependency states q ↔ kv ∈ states ∧ strIn kv.1 q = true) ∧
    (∀ (states : List (String × DependencyState)) (q : String),
      (∀ kv ∈ states, q.toList.length < kv.1.toList.length) →
      getDependency states q = [] ∧ getDependencyStateEJ states q = none) := by
  constructor
  · intro states q kv
    simp [getDependency, List.mem_filter]
  · intro states q hlong
    have hempty : getDependency states q = [] := by
      simp only [getDependency, List.filter_eq_nil_iff]
      intro kv hkv
      intro hcontra
      have := containsL_length_le (by simpa [strIn] using hcontra)
      exact absurd this (by simpa using Nat.not_le_of_lt (hlong kv hkv))
    exact ⟨hempty, by simp [getDependencyStateEJ, hempty, firstWithNameIn]⟩

/-- Witness for C8: a single state keyed `"vscode-java.linux-x64"`
queried with `"vscode-java"` yields no entries and `None`. -/
theorem claim_c8_witness :
    getDependency
        [("vscode-java.linux-x64",
          DependencyState.mk "vscode-java.linux-x64" "completed"
            (some "/static/vscode-java") none)] "vscode-java" = [] ∧
      getDependencyStateEJ
        [("vscode-java.linux-x64",
          DependencyState.mk "vscode-java.linux-x64" "completed"
            (some "/static/vscode-java") none)] "vscode-java" = none :=
  claim_c8_get_dependency_substring_direction.2
    [("vscode-java.linux-x64",
      DependencyState.mk "vscode-java.linux-x64" "completed"
        (some "/static/vscode-java") none)] "vscode-java"
    (by decide)

theorem downloadAllPendingAux_fst (env : DownloadPlan → DownloadOutcome) :
    ∀ (l : List DownloadPlan) (acc : Bool)
      (states : List (String × DependencyState)),
      (downloadAllPendingAux env l acc states).1 =
        (acc && l.all (fun p => env p == DownloadOutcome.ok)) := by
  intro l
  induction l with
  | nil => intro acc states; simp [downloadAllPendingAux]
  | cons p rest ih =>
    intro acc states
    simp only [downloadAllPendingAux, List.all_cons, ih]
    cases h : env p <;> simp [downloadDependency, h, Bool.and_assoc]

/-- C10: `download_dependency` never propagates a failure: every
non-`ok` outcome is recorded as a FAILED state with no downloaded path
and returns `False`, while success records COMPLETED with the plan's
destination path and returns `True`; and `download_all_pending` returns
`True` exactly when every plan pending at the call succeeded (vacuously
`True` when none were pending). -/
theorem claim_c10_downloader_error_handling :
    (∀ (env : DownloadPlan → DownloadOutcome)
        (states : List (String × DependencyState)) (plan : DownloadPlan),
      downloadDependency env states plan =
        if env plan = DownloadOutcome.ok then
          (true, aset states plan.dependencyKey
            { dependencyKey := plan.dependencyKey
              downloadStatus := statusCompleted
              downloadedPath := some plan.destinationPath
              errorMessage := none })
        else
          (false, aset states plan.dependencyKey
            { dependencyKey := plan.dependencyKey
              downloadStatus := statusFailed
              downloadedPath := none
              errorMessage := some "Download failed" })) ∧
    (∀ (env : DownloadPlan → DownloadOutcome) (plans : List DownloadPlan)
        (states : List (String × DependencyState)),
      (downloadAllPending env plans states).1 =
        (getPendingDownloads plans).all (fun p => env p == DownloadOutcome.ok)) := by
  constructor
  · intro env states plan
    cases h : env plan <;>
      simp [downloadDependency, markDownloadCompleted, h]
  · intro env plans states
    simp [downloadAllPending, downloadAllPendingAux_fst]

theorem handler_gates_monotone (regs : List Registration) (g : Gates) :
    ((runRegisterCapabilityHandler regs g).1).serviceReadyEvent =
        g.serviceReadyEvent ∧
      (g.intellicodeEnableCommandAvailable = true →
        ((runRegisterCapabilityHandler regs g).1).intellicodeEnableCommandAvailable
          = true) := by
  induction regs generalizing g with
  | nil => exact ⟨rfl, fun h => h⟩
  | cons r rest ih =>
    simp only [runRegisterCapabilityHandler]
    split
    · split
      · exact ih _
      · exact ⟨rfl, fun h => h⟩
    · split
      · refine ⟨?_, ?_⟩
        · rw [(ih _).1]
          split <;> rfl
        · intro h
          refine (ih _).2 ?_
          split <;> simp [h]
      · exact ih _

theorem handler_intellicode_track (regs : List Registration) (g : Gates)
    (hok : (runRegisterCapabilityHandler regs g).2 = true) :
    ((runRegisterCapabilityHandler regs g).1).intellicodeEnableCommandAvailable =
      (g.intellicodeEnableCommandAvailable ||
        regs.any (fun r => r.method == "workspace/executeCommand" &&
          r.commands.contains "java.intellicode.enable")) := by
  induction regs generalizing g with
  | nil => simp [runRegisterCapabilityHandler]
  | cons r rest ih =>
    simp only [runRegisterCapabilityHandler, List.any_cons] at hok ⊢
    by_cases h1 : (r.method == "textDocument/completion") = true
    · have hm : r.method = "textDocument/completion" := by simpa using h1
      rw [if_pos h1] at hok ⊢
      by_cases h2 : (r.resolveProvider == some true &&
          r.triggerCharacters == some [".", "@", "#", "*", " "]) = true
      · rw [if_pos h2] at hok ⊢
        rw [ih _ hok]
        simp [hm]
      · rw [if_neg h2] at hok
        simp at hok
    · rw [if_neg h1] at hok ⊢
      by_cases h2 : (r.method == "workspace/executeCommand") = true
      · rw [if_pos h2] at hok ⊢
        by_cases hc : r.commands.contains "java.intellicode.enable" = true
        · rw [if_pos hc] at hok ⊢
          rw [ih _ hok]
          simp only [h2, hc, Bool.true_and, Bool.true_or, Bool.or_true]
        · rw [if_neg hc] at hok ⊢
          rw [ih _ hok]
          have hcf : r.commands.contains "java.intellicode.enable" = false := by
            simpa using hc
          simp only [h2, hcf, Bool.true_and, Bool.false_or]
      · rw [if_neg h2] at hok ⊢
        rw [ih _ hok]
        have h2f : (r.method == "workspace/executeCommand") = false := by
          simpa using h2
        simp [h2f]

theorem step_intellicode_only_by_handler (s : SessionState) (l : Label) :
    (step s l).gates.intellicodeEnableCommandAvailable =
        s.gates.intellicodeEnableCommandAvailable ∨
      ∃ regs, l = Label.registerCapability regs := by
  obtain ⟨ph, g, snt⟩ := s
  cases l with
  | registerCapability regs => exact Or.inr ⟨regs, rfl⟩
  | initResponse c =>
    left
    cases ph
    case awaitingInit =>
      simp only [step]
      rw [if_pos trivial]
      split
      · rfl
      · rfl
    all_goals simp [step]
  | langStatus t m =>
    left
    simp only [step]
    split
    · rfl
    · rfl
  | proceed =>
    left
    cases ph <;> simp [step] <;> split <;> rfl
  | exitScope =>
    left
    cases ph <;> simp [step]
  | shutdownComplete =>
    left
    cases ph <;> simp [step]

theorem step_preserves_inv (s : SessionState) (l : Label) (h : SessionInv s) :
    SessionInv (step s l) := by
  obtain ⟨ph, g, snt⟩ := s
  obtain ⟨hsent, hintel, hsvc⟩ := h
  simp only at hsent hintel hsvc
  subst hsent
  cases l with
  | initResponse c =>
    cases ph
    case awaitingInit =>
      simp only [step]
      rw [if_pos trivial]
      split
      · exact ⟨rfl, by simp, by simp⟩
      · exact ⟨rfl, by simp, by simp⟩
    all_goals
      simp only [step]
      rw [if_neg (by simp)]
      exact ⟨rfl, hintel, hsvc⟩
  | registerCapability regs =>
    simp only [step]
    refine ⟨rfl, ?_, ?_⟩
    · intro hph
      exact (handler_gates_monotone regs g).2 (hintel hph)
    · intro hph
      rw [(handler_gates_monotone regs g).1]
      exact hsvc hph
  | langStatus t m =>
    simp only [step]
    split
    · exact ⟨rfl, fun hph => hintel hph, fun _ => rfl⟩
    · exact ⟨rfl, hintel, hsvc⟩
  | proceed =>
    cases ph
    case awaitingIntellicode =>
      simp only [step]
      split
      case isTrue hg => exact ⟨rfl, fun _ => hg, by simp⟩
      case isFalse hg => exact ⟨rfl, hintel, hsvc⟩
    case awaitingServiceReady =>
      simp only [step]
      split
      case isTrue hg =>
        exact ⟨rfl, fun _ => hintel (Or.inl rfl), fun _ => hg⟩
      case isFalse hg => exact ⟨rfl, hintel, hsvc⟩
    all_goals
      simp only [step]
      exact ⟨rfl, hintel, hsvc⟩
  | exitScope =>
    cases ph
    case ready =>
      simp only [step]
      rw [if_pos trivial]
      refine ⟨rfl, fun _ => ?_, fun _ => ?_⟩
      · exact hintel (Or.inr (Or.inl rfl))
      · exact hsvc (Or.inl rfl)
    all_goals
      simp only [step]
      rw [if_neg (by simp)]
      exact ⟨rfl, hintel, hsvc⟩
  | shutdownComplete =>
    cases ph
    case shuttingDown =>
      simp only [step]
      rw [if_pos trivial]
      refine ⟨rfl, fun _ => ?_, fun _ => ?_⟩
      · exact hintel (Or.inr (Or.inr (Or.inl rfl)))
      · exact hsvc (Or.inr (Or.inl rfl))
    all_goals
      simp only [step]
      rw [if_neg (by simp)]
      exact ⟨rfl, hintel, hsvc⟩

theorem foldl_preserves_inv :
    ∀ (labs : List Label) (s : SessionState), SessionInv s →
      SessionInv (labs.foldl step s) := by
  intro labs
  induction labs with
  | nil => intro s h; exact h
  | cons l rest ih =>
    intro s h
    exact ih (step s l) (step_preserves_inv s l h)

theorem initSession_inv : SessionInv initSession := by
  refine ⟨rfl, ?_, ?_⟩ <;> intro h <;> simp [initSession] at h

theorem run_inv (labs : List Label) : SessionInv (run labs) :=
  foldl_preserves_inv labs initSession initSession_inv

/-- C5: the `language/status` handler sets the service-ready gate
exactly when both the `type` and `message` fields equal
`"ServiceReady"`, and changes nothing else in the session state. -/
theorem claim_c5_lang_status_handler (s : SessionState) (t m : String) :
    (step s (Label.langStatus t m)).gates.serviceReadyEvent =
        (s.gates.serviceReadyEvent || (t == "ServiceReady" && m == "ServiceReady")) ∧
      (step s (Label.langStatus t m)).phase = s.phase ∧
      (step s (Label.langStatus t m)).sent = s.sent ∧
      (step s (Label.langStatus t m)).gates.completionsAvailable =
        s.gates.completionsAvailable ∧
      (step s (Label.langStatus t m)).gates.intellicodeEnableCommandAvailable =
        s.gates.intellicodeEnableCommandAvailable := by
  obtain ⟨ph, g, snt⟩ := s
  simp only [step]
  by_cases h : (t == "ServiceReady" && m == "ServiceReady") = true
  · rw [if_pos h, h]
    simp
  · rw [if_neg h]
    have hf : (t == "ServiceReady" && m == "ServiceReady") = false := by
      simpa using h
    simp [hf]

/-- C2: the `yield self` of `start_server` is reached only with both the
`intellicode_enable_command_available` event and the
`service_ready_event` set: in every reachable state whose outbound
record contains the yield, both gates are set (in particular in the
first such state, so both were set before control was yielded). -/
theorem claim_c2_yield_requires_gates (labs : List Label)
    (h : OutMsg.yieldReady ∈ (run labs).sent) :
    (run labs).gates.intellicodeEnableCommandAvailable = true ∧
      (run labs).gates.serviceReadyEvent = true := by
  obtain ⟨hsent, hintel, hsvc⟩ := run_inv labs
  rw [hsent] at h
  have hph : (run labs).phase = Phase.ready ∨
      (run labs).phase = Phase.shuttingDown ∨
      (run labs).phase = Phase.stopped := by
    cases hp : (run labs).phase <;> rw [hp] at h <;>
      simp [canonicalSent] at h <;> simp
  exact ⟨hintel (Or.inr hph), hsvc hph⟩

/-- Witness for C2: a concrete run that reaches the yield. -/
theorem claim_c2_witness :
    (run [Label.initResponse (Caps.mk (some 2) false false),
          Label.registerCapability
            [Registration.mk "workspace/executeCommand" none none
              ["java.intellicode.enable"]],
          Label.langStatus "ServiceReady" "ServiceReady",
          Label.proceed, Label.proceed]).gates.intellicodeEnableCommandAvailable
        = true ∧
      (run [Label.initResponse (Caps.mk (some 2) false false),
            Label.registerCapability
              [Registration.mk "workspace/executeCommand" none none
                ["java.intellicode.enable"]],
            Label.langStatus "ServiceReady" "ServiceReady",
            Label.proceed, Label.proceed]).gates.serviceReadyEvent = true :=
  claim_c2_yield_requires_gates _ (by decide)

/-- C4: the `java.intellicode.enable` execute command is never sent
before the intellicode gate is set (every reachable state whose record
contains that command has the gate set, in particular the first one);
the `client/registerCapability` handler sets that gate exactly when some
`workspace/executeCommand` registration lists `java.intellicode.enable`
(when its assertions pass); and no label other than an inbound
`client/registerCapability` request ever changes that gate. -/
theorem claim_c4_intellicode_gating :
    (∀ labs : List Label,
      OutMsg.executeCommandReq "java.intellicode.enable" ∈ (run labs).sent →
      (run labs).gates.intellicodeEnableCommandAvailable = true) ∧
    (∀ (regs : List Registration) (g : Gates),
      (runRegisterCapabilityHandler regs g).2 = true →
      ((runRegisterCapabilityHandler regs g).1).intellicodeEnableCommandAvailable
        = (g.intellicodeEnableCommandAvailable ||
          regs.any (fun r => r.method == "workspace/executeCommand" &&
            r.commands.contains "java.intellicode.enable"))) ∧
    (∀ (s : SessionState) (l : Label),
      (step s l).gates.intellicodeEnableCommandAvailable =
          s.gates.intellicodeEnableCommandAvailable ∨
        ∃ regs, l = Label.registerCapability regs) := by
  refine ⟨?_, handler_intellicode_track, step_intellicode_only_by_handler⟩
  intro labs h
  obtain ⟨hsent, hintel, -⟩ := run_inv labs
  rw [hsent] at h
  apply hintel
  cases hp : (run labs).phase <;> rw [hp] at h <;>
    simp [canonicalSent] at h <;> simp

/-- Witness for C4: a run in which the execute command was sent, and a
concrete registration list processed by the handler. -/
theorem claim_c4_witness :
    (run [Label.initResponse (Caps.mk (some 2) false false),
          Label.registerCapability
            [Registration.mk "workspace/executeCommand" none none
              ["java.intellicode.enable"]],
          Label.proceed]).gates.intellicodeEnableCommandAvailable = true ∧
      ((runRegisterCapabilityHandler
          [Registration.mk "workspace/executeCommand" none none
            ["java.intellicode.enable"]]
          (Gates.mk false false false)).1).intellicodeEnableCommandAvailable
        = ((Gates.mk false false false).intellicodeEnableCommandAvailable ||
          [Registration.mk "workspace/executeCommand" none none
            ["java.intellicode.enable"]].any
            (fun r => r.method == "workspace/executeCommand" &&
              r.commands.contains "java.intellicode.enable")) :=
  ⟨claim_c4_intellicode_gating.1 _ (by decide),
   claim_c4_intellicode_gating.2.1 _ _ (by decide)⟩

/-- C6: whenever the process-stop call has happened, the shutdown
request was sent strictly earlier in the outbound record: `stop` is
never invoked before `shutdown` has been sent and awaited (the machine
only appends `stopProc` on completion of the awaited shutdown). -/
theorem claim_c6_shutdown_before_stop (labs : List Label)
    (h : OutMsg.stopProc ∈ (run labs).sent) :
    ∃ i j : Nat, i < j ∧ (run labs).sent[i]? = some OutMsg.shutdownReq ∧
      (run labs).sent[j]? = some OutMsg.stopProc := by
  obtain ⟨hsent, -, -⟩ := run_inv labs
  rw [hsent] at h
  have hph : (run labs).phase = Phase.stopped := by
    cases hp : (run labs).phase
    case stopped => rfl
    all_goals rw [hp] at h; simp [canonicalSent] at h
  rw [hsent, hph]
  exact ⟨5, 6, by omega, by decide, by decide⟩

/-- Witness for C6: a complete run through shutdown. -/
theorem claim_c6_witness :
    ∃ i j : Nat, i < j ∧
      (run [Label.initResponse (Caps.mk (some 2) false false),
            Label.registerCapability
              [Registration.mk "workspace/executeCommand" none none
                ["java.intellicode.enable"]],
            Label.langStatus "ServiceReady" "ServiceReady",
            Label.proceed, Label.proceed, Label.exitScope,
            Label.shutdownComplete]).sent[i]? = some OutMsg.shutdownReq ∧
      (run [Label.initResponse (Caps.mk (some 2) false false),
            Label.registerCapability
              [Registration.mk "workspace/executeCommand" none none
                ["java.intellicode.enable"]],
            Label.langStatus "ServiceReady" "ServiceReady",
            Label.proceed, Label.proceed, Label.exitScope,
            Label.shutdownComplete]).sent[j]? = some OutMsg.stopProc :=
  claim_c6_shutdown_before_stop _ (by decide)

theorem step_keeps_stuck (s : SessionState) (l : Label)
    (hbad : ∀ c, l = Label.initResponse c → capabilitiesOk c = false)
    (hs : s.phase = Phase.awaitingInit ∨ s.phase = Phase.failedHandshake) :
    ((step s l).phase = Phase.awaitingInit ∨
      (step s l).phase = Phase.failedHandshake) ∧
    (s.phase = Phase.failedHandshake →
      (step s l).phase = Phase.failedHandshake) ∧
    ((∃ c, l = Label.initResponse c) →
      (step s l).phase = Phase.failedHandshake) := by
  obtain ⟨ph, g, snt⟩ := s
  simp only at hs
  cases l with
  | initResponse c =>
    have hc : capabilitiesOk c = false := hbad c rfl
    rcases hs with h | h <;> subst h
    · simp only [step]
      rw [if_pos trivial, hc]
      simp
    · simp only [step]
      rw [if_neg (by simp)]
      simp
  | registerCapability regs =>
    rcases hs with h | h <;> subst h <;> simp [step]
  | langStatus t m =>
    have hph : (step ⟨ph, g, snt⟩ (Label.langStatus t m)).phase = ph := by
      simp only [step]
      split
      · rfl
      · rfl
    rcases hs with h | h <;> subst h <;> rw [hph] <;> simp
  | proceed =>
    rcases hs with h | h <;> subst h <;> simp [step]
  | exitScope =>
    rcases hs with h | h <;> subst h <;> simp [step]
  | shutdownComplete =>
    rcases hs with h | h <;> subst h <;> simp [step]

theorem run_from_all_bad :
    ∀ (labs : List Label) (s : SessionState),
      (∀ c, Label.initResponse c ∈ labs → capabilitiesOk c = false) →
      (s.phase = Phase.awaitingInit ∨ s.phase = Phase.failedHandshake) →
      ((labs.foldl step s).phase = Phase.awaitingInit ∨
        (labs.foldl step s).phase = Phase.failedHandshake) ∧
      (s.phase = Phase.failedHandshake →
        (labs.foldl step s).phase = Phase.failedHandshake) ∧
      ((∃ c, Label.initResponse c ∈ labs) →
        (labs.foldl step s).phase = Phase.failedHandshake) := by
  intro labs
  induction labs with
  | nil =>
    intro s hbad hs
    refine ⟨hs, fun h => h, ?_⟩
    rintro ⟨c, hc⟩
    simp at hc
  | cons l rest ih =>
    intro s hbad hs
    have hstep := step_keeps_stuck s l
      (fun c hc => hbad c (by rw [hc]; exact List.mem_cons_self _ _)) hs
    have hrest := ih (step s l)
      (fun c hc => hbad c (List.mem_cons_of_mem _ hc)) hstep.1
    refine ⟨hrest.1, ?_, ?_⟩
    · intro h
      exact hrest.2.1 (hstep.2.1 h)
    · rintro ⟨c, hc⟩
      rcases List.mem_cons.mp hc with hc | hc
      · exact hrest.2.1 (hstep.2.2 ⟨c, hc.symm⟩)
      · exact hrest.2.2 ⟨c, hc⟩

/-- C1: if every initialize response delivered carries capabilities that
fail the required checks (textDocumentSync.change = 2, no
completionProvider, no executeCommandProvider), and at least one is
delivered, then the handshake ends in the failed state and the session
never reaches Ready (the yield is never part of the outbound record). -/
theorem claim_c1_bad_capabilities_fail_handshake (labs : List Label)
    (hbad : ∀ c : Caps, Label.initResponse c ∈ labs → capabilitiesOk c = false)
    (hresp : ∃ c : Caps, Label.initResponse c ∈ labs) :
    (run labs).phase = Phase.failedHandshake ∧
      (run labs).phase ≠ Phase.ready ∧
      OutMsg.yieldReady ∉ (run labs).sent := by
  have h := run_from_all_bad labs initSession hbad (Or.inl rfl)
  have hph : (run labs).phase = Phase.failedHandshake := h.2.2 hresp
  refine ⟨hph, by rw [hph]; simp, ?_⟩
  obtain ⟨hsent, -, -⟩ := run_inv labs
  rw [hsent, hph]
  simp [canonicalSent]

/-- Witness for C1: a response whose capabilities are missing the
required synchronization mode. -/
theorem claim_c1_witness :
    (run [Label.initResponse (Caps.mk none false false)]).phase =
        Phase.failedHandshake ∧
      (run [Label.initResponse (Caps.mk none false false)]).phase ≠
        Phase.ready ∧
      OutMsg.yieldReady ∉
        (run [Label.initResponse (Caps.mk none false false)]).sent :=
  claim_c1_bad_capabilities_fail_handshake _
    (by
      intro c hc
      simp only [List.mem_singleton] at hc
      injection hc with h
      subst h
      decide)
    ⟨Caps.mk none false false, by simp⟩

theorem setOpt_processId (cfg : InitializeParamsConfig) (v : JVal)
    (keys : List String) :
    (setInitializationOption cfg v keys).processId = cfg.processId := by
  simp only [setInitializationOption]
  split <;> rfl

theorem setOpt_rootPath (cfg : InitializeParamsConfig) (v : JVal)
    (keys : List String) :
    (setInitializationOption cfg v keys).rootPath = cfg.rootPath := by
  simp only [setInitializationOption]
  split <;> rfl

theorem setOpt_rootUri (cfg : InitializeParamsConfig) (v : JVal)
    (keys : List String) :
    (setInitializationOption cfg v keys).rootUri = cfg.rootUri := by
  simp only [setInitializationOption]
  split <;> rfl

theorem setOpt_workspaceFolders (cfg : InitializeParamsConfig) (v : JVal)
    (keys : List String) :
    (setInitializationOption cfg v keys).workspaceFolders =
      cfg.workspaceFolders := by
  simp only [setInitializationOption]
  split <;> rfl

/-- C3: for every repository path, the parameters returned by
`_get_initialize_params` carry the current process id, the absolute
form of the path as `rootPath`, its file URI as `rootUri`, and a
one-element `workspaceFolders` list whose entry has that URI as `uri`
and the path's basename as `name`. -/
theorem claim_c3_initialize_params_substitution
    (cfg : InitializeParamsConfig) (pid : Nat)
    (isAbs : String → Bool) (abspath : String → String)
    (asUri : String → String) (basename : String → String)
    (intellicodeJarPath jreHomePath gradlePath jrePath : String)
    (p : String) :
    (getInitializeParams cfg pid isAbs abspath asUri basename
        intellicodeJarPath jreHomePath gradlePath jrePath p).processId =
        some pid ∧
      (getInitializeParams cfg pid isAbs abspath asUri basename
        intellicodeJarPath jreHomePath gradlePath jrePath p).rootPath =
        some (if isAbs p then p else abspath p) ∧
      (getInitializeParams cfg pid isAbs abspath asUri basename
        intellicodeJarPath jreHomePath gradlePath jrePath p).rootUri =
        some (asUri (if isAbs p then p else abspath p)) ∧
      (getInitializeParams cfg pid isAbs abspath asUri basename
        intellicodeJarPath jreHomePath gradlePath jrePath p).workspaceFolders =
        some [WorkspaceFolder.mk (asUri (if isAbs p then p else abspath p))
          (basename (if isAbs p then p else abspath p))] := by
  refine ⟨?_, ?_, ?_, ?_⟩ <;>
    simp [getInitializeParams, setOpt_processId, setOpt_rootPath,
      setOpt_rootUri, setOpt_workspaceFolders]

theorem alookup_append_missing {α : Type} (docs : List (String × α))
    (fp : String) (v : α) (h : alookup docs fp = none) :
    alookup (docs ++ [(fp, v)]) fp = some v := by
  induction docs with
  | nil => simp [alookup]
  | cons hd tl ih =>
    by_cases hk : hd.1 = fp
    · simp [alookup, hk] at h
    · rw [List.cons_append]
      simp only [alookup, if_neg hk] at h ⊢
      exact ih h

theorem openFileSem_opens (docs : List (String × Nat)) (fp : String) :
    (alookup (openFileSem docs fp) fp).isSome = true := by
  simp only [openFileSem]
  cases h : alookup docs fp with
  | some v => simp [h]
  | none => simp [alookup_append_missing docs fp 1 h]

theorem toolBody_requests_open (c l s : Bool) (m fp : String)
    (docs : List (String × Nat)) :
    requestsOnOpenDocs docs (toolBody c l s
      [ToolAction.openFile fp, ToolAction.request m fp]) = true := by
  cases c <;> cases l <;> cases s <;>
    simp [toolBody, requestsOnOpenDocs, openFileSem_opens]

/-- C7: each position/document-oriented tool (definition, references,
hover, completions, document symbols) opens the target document before
issuing its request: under every guard combination and every starting
document map (including one in which the document was never opened),
every request the tool performs is issued with the document open; and
opening a never-opened document registers it with version 1, so
operating on it is permitted and implicitly opens it. -/
theorem claim_c7_tools_open_before_request
    (configured langValid serverAvailable : Bool) (fp : String)
    (docs : List (String × Nat)) :
    requestsOnOpenDocs docs
        (lspGetDefinitionActs configured langValid serverAvailable fp)
      = true ∧
    requestsOnOpenDocs docs
        (lspGetReferencesActs configured langValid serverAvailable fp)
      = true ∧
    requestsOnOpenDocs docs
        (lspGetHoverActs configured langValid serverAvailable fp)
      = true ∧
    requestsOnOpenDocs docs
        (lspGetCompletionsActs configured langValid serverAvailable fp)
      = true ∧
    requestsOnOpenDocs docs
        (lspGetDocumentSymbolsActs configured langValid serverAvailable fp)
      = true ∧
    (alookup docs fp = none → alookup (openFileSem docs fp) fp = some 1) := by
  refine ⟨toolBody_requests_open _ _ _ _ _ _,
    toolBody_requests_open _ _ _ _ _ _,
    toolBody_requests_open _ _ _ _ _ _,
    toolBody_requests_open _ _ _ _ _ _,
    toolBody_requests_open _ _ _ _ _ _, ?_⟩
  intro h
  simp only [openFileSem, h]
  exact alookup_append_missing docs fp 1 h

/-- Witness for C7: opening the never-opened `Foo.java` registers it
with version 1. -/
theorem claim_c7_witness :
    alookup (openFileSem [] "Foo.java") "Foo.java" = some 1 :=
  (claim_c7_tools_open_before_request true true true "Foo.java" []).2.2.2.2.2
    (by rfl)

